import Mathlib

set_option maxHeartbeats 1000000

/-! Shallow embedding of the two variants of the hyperliquid spot order-book
collector: `src/nosave.ts` (mode A, in-memory latest-value cache) and
`src/yessave.ts` (mode B, file persistence).  JavaScript numbers are modelled
as exact rationals with an explicit NaN case (the rational model replaces IEEE
doubles; infinities do not arise on the evaluated paths), and the impure
timestamp `new Date().toISOString()` is abstracted to a string parameter. -/

/-- A JavaScript number: NaN or an exact rational. -/
inductive JNum where
  | nan : JNum
  | num : ℚ → JNum
  deriving DecidableEq

/-- JavaScript `+` on numbers: NaN absorbs. -/
def JNum.add : JNum → JNum → JNum
  | JNum.num a, JNum.num b => JNum.num (a + b)
  | _, _ => JNum.nan

/-- JavaScript `-` on numbers: NaN absorbs. -/
def JNum.sub : JNum → JNum → JNum
  | JNum.num a, JNum.num b => JNum.num (a - b)
  | _, _ => JNum.nan

/-- JavaScript `*` on numbers: NaN absorbs. -/
def JNum.mul : JNum → JNum → JNum
  | JNum.num a, JNum.num b => JNum.num (a * b)
  | _, _ => JNum.nan

/-- JavaScript `/` on numbers.  A zero denominator gives `nan` here; in
JavaScript it gives an infinity (or NaN for 0/0), but every division in the
sources is guarded by `bestBid > 0`, so that case is never evaluated. -/
def JNum.div : JNum → JNum → JNum
  | JNum.num a, JNum.num b => if b = 0 then JNum.nan else JNum.num (a / b)
  | _, _ => JNum.nan

/-- JavaScript `x > 0`: false for NaN. -/
def JNum.gtZero : JNum → Bool
  | JNum.num a => decide (0 < a)
  | JNum.nan => false

/-- Numeric value of a decimal digit character. -/
def charVal (c : Char) : ℕ := c.toNat - 48

/-- The decimal digit character for a value below ten. -/
def digitChar (d : ℕ) : Char :=
  match d with
  | 0 => '0'
  | 1 => '1'
  | 2 => '2'
  | 3 => '3'
  | 4 => '4'
  | 5 => '5'
  | 6 => '6'
  | 7 => '7'
  | 8 => '8'
  | _ => '9'

/-- Fuel-driven core of the decimal expansion (structural recursion so the
kernel can evaluate it). -/
def natToCharsAux : ℕ → ℕ → List Char
  | 0, _ => []
  | fuel + 1, n =>
    if n < 10 then [digitChar n]
    else natToCharsAux fuel (n / 10) ++ [digitChar (n % 10)]

/-- Decimal digit expansion of a natural number, most significant first
(JavaScript `Number#toString` restricted to naturals). -/
def natToChars (n : ℕ) : List Char := natToCharsAux (n + 1) n

/-- Decimal rendering of a natural number. -/
def natToString (n : ℕ) : String := String.mk (natToChars n)

/-- Left-pad a digit list with zeros to length at least `k`. -/
def padZeros (s : List Char) (k : ℕ) : List Char := List.replicate (k - s.length) '0' ++ s

/-- Place a decimal point `f` digits from the right of the decimal expansion
of `n` (used by `toFixed`). -/
def decimalDigits (n : ℕ) (f : ℕ) : String :=
  let s := padZeros (natToChars n) (f + 1)
  if f = 0 then String.mk s
  else String.mk (s.take (s.length - f)) ++ "." ++ String.mk (s.drop (s.length - f))

/-- JavaScript `Number#toFixed(f)`: `"NaN"` for NaN, otherwise the sign of the
argument followed by the decimal expansion of the integer nearest to
`|x| * 10^f` (ties to the larger integer), with a point inserted `f` digits
from the right. -/
def JNum.toFixed : JNum → ℕ → String
  | JNum.nan, _ => "NaN"
  | JNum.num q, f =>
    let sign := if q < 0 then "-" else ""
    let mag := if q < 0 then -q else q
    let n : ℕ := (⌊mag * (10 : ℚ) ^ f + 1 / 2⌋).toNat
    sign ++ decimalDigits n f

/-- Digit list to natural number, most significant first. -/
def digitsToNat (cs : List Char) : ℕ := cs.foldl (fun a c => 10 * a + charVal c) 0

/-- Exponent part of a JavaScript float literal (`e`/`E` followed by an
optionally signed digit string); an absent or malformed exponent contributes
factor one, matching `parseFloat`'s longest-valid-prefix rule. -/
def parseExpPart (cs : List Char) : ℤ :=
  match cs with
  | 'e' :: r => parseSignedDigits r
  | 'E' :: r => parseSignedDigits r
  | _ => 0
where parseSignedDigits (cs : List Char) : ℤ :=
  match cs with
  | '-' :: r => if (r.takeWhile Char.isDigit).isEmpty then 0 else -(digitsToNat (r.takeWhile Char.isDigit) : ℤ)
  | '+' :: r => if (r.takeWhile Char.isDigit).isEmpty then 0 else (digitsToNat (r.takeWhile Char.isDigit) : ℤ)
  | r => if (r.takeWhile Char.isDigit).isEmpty then 0 else (digitsToNat (r.takeWhile Char.isDigit) : ℤ)

/-- JavaScript `parseFloat`: skip leading whitespace, read an optional sign,
integer digits, an optional fraction, and an optional well-formed exponent;
NaN when no digits are found.  (The `"Infinity"` literal is not modelled; it
does not occur in any input the sources feed to `parseFloat`.) -/
def parseFloat (s : String) : JNum :=
  let cs := s.toList.dropWhile Char.isWhitespace
  let sign : ℚ :=
    match cs with
    | '-' :: _ => -1
    | _ => 1
  let cs1 :=
    match cs with
    | '-' :: r => r
    | '+' :: r => r
    | r => r
  let intD := cs1.takeWhile Char.isDigit
  let rest1 := cs1.dropWhile Char.isDigit
  let fracD :=
    match rest1 with
    | '.' :: r => r.takeWhile Char.isDigit
    | _ => []
  let rest2 :=
    match rest1 with
    | '.' :: r => r.dropWhile Char.isDigit
    | _ => rest1
  if intD.isEmpty ∧ fracD.isEmpty then JNum.nan
  else
    let mant : ℚ := (digitsToNat intD : ℚ) + (digitsToNat fracD : ℚ) / (10 : ℚ) ^ fracD.length
    JNum.num (sign * mant * (10 : ℚ) ^ parseExpPart rest2)

/-- A JavaScript property read: either `undefined` or a string value. -/
inductive JField where
  | undef : JField
  | str : String → JField
  deriving DecidableEq

/-- String coercion as applied by `parseFloat` and template literals:
`undefined` coerces to `"undefined"`. -/
def JField.coerce : JField → String
  | JField.undef => "undefined"
  | JField.str s => s

/-- One raw level object of the feed payload; `px`/`sz` may be absent
(reading a missing property yields `undefined`, which does not throw). -/
structure RawLevel where
  px : JField
  sz : JField
  deriving DecidableEq

/-- The `l2Data` argument of `processOrderbookData`.  `levels = none` models a
payload on which `l2Data.levels[0]` throws (missing `levels`); a `none` side
models `levels[0]` / `levels[1]` not being an array, on which `.map` throws.
Both throws are caught by the function's `try`/`catch`. -/
structure L2Data where
  levels : Option (Option (List RawLevel) × Option (List RawLevel))
  deriving DecidableEq

/-- The `OrderbookLevel` record of both sources. -/
structure OrderbookLevel where
  level : ℕ
  price : JField
  size : JField
  cumulative : String
  timestamp : String
  deriving DecidableEq

/-- The `CoinOrderbook` record of both sources. -/
structure CoinOrderbook where
  symbol : String
  displaySymbol : String
  lastUpdate : String
  midPrice : String
  spread : String
  spreadPercentage : String
  bids : List OrderbookLevel
  asks : List OrderbookLevel
  deriving DecidableEq

/-- The ambient state the transformer reads: the spot symbol display-name
mapping, the mid-price cache, and the abstracted timestamp. -/
structure TransformCtx where
  symbolMapping : List (String × String)
  midsCache : List (String × String)
  timestamp : String
  deriving DecidableEq

/-- JavaScript `x || d` on an optional string: `undefined` and `""` are
falsy. -/
def jsOrElse (v : Option String) (d : String) : String :=
  match v with
  | some s => if s = "" then d else s
  | none => d

/-- JavaScript `map.get(k) || d` (and `record[k] || d`). -/
def mapGetOr (m : List (String × String)) (k d : String) : String := jsOrElse (m.lookup k) d

namespace Nosave

/-- The running-cumulative map over the selected levels of one side,
mirroring the closure over `bidCumulative` / `askCumulative` inside
`processOrderbookData` of `src/nosave.ts`. -/
def cumLevels (ts : String) : JNum → ℕ → List (JField × JField) → List OrderbookLevel
  | _, _, [] => []
  | c, idx, (px, sz) :: rest =>
    let c2 := JNum.add c (parseFloat (JField.coerce sz))
    { level := idx + 1, price := px, size := sz, cumulative := c2.toFixed 4, timestamp := ts } ::
      cumLevels ts c2 (idx + 1) rest

/-- The function `processOrderbookData` of `src/nosave.ts` (lines 96-161). -/
def processOrderbookData (ctx : TransformCtx) (coin : String) (l2Data : L2Data) :
    Option CoinOrderbook :=
  match l2Data.levels with
  | none => none
  | some (bidsRaw, asksRaw) =>
    match bidsRaw, asksRaw with
    | some bids0, some asks0 =>
      let displaySymbol := mapGetOr ctx.symbolMapping coin coin
      let midPrice := mapGetOr ctx.midsCache coin "0"
      let bids := bids0.map (fun l => (l.px, l.sz))
      let asks := asks0.map (fun l => (l.px, l.sz))
      let bestBid :=
        match bids with
        | [] => JNum.num 0
        | b :: _ => parseFloat (JField.coerce b.1)
      let bestAsk :=
        match asks with
        | [] => JNum.num 0
        | a :: _ => parseFloat (JField.coerce a.1)
      let spread := JNum.sub bestAsk bestBid
      let spreadPercentage :=
        if JNum.gtZero bestBid then (JNum.mul (JNum.div spread bestBid) (JNum.num 100)).toFixed 4
        else "0"
      let topBidsCount := min 10 bids.length
      let topAsksCount := min 10 asks.length
      let topBids := cumLevels ctx.timestamp (JNum.num 0) 0 (bids.take topBidsCount)
      let topAsks := cumLevels ctx.timestamp (JNum.num 0) 0 (asks.take topAsksCount)
      some
        { symbol := coin
          displaySymbol := displaySymbol
          lastUpdate := ctx.timestamp
          midPrice := midPrice
          spread := spread.toFixed 8
          spreadPercentage := spreadPercentage ++ "%"
          bids := topBids
          asks := topAsks }
    | _, _ => none

end Nosave

namespace Yessave

/-- The running-cumulative map over the selected levels of one side,
mirroring the closure over `bidCumulative` / `askCumulative` inside
`processOrderbookData` of `src/yessave.ts`. -/
def cumLevels (ts : String) : JNum → ℕ → List (JField × JField) → List OrderbookLevel
  | _, _, [] => []
  | c, idx, (px, sz) :: rest =>
    let c2 := JNum.add c (parseFloat (JField.coerce sz))
    { level := idx + 1, price := px, size := sz, cumulative := c2.toFixed 4, timestamp := ts } ::
      cumLevels ts c2 (idx + 1) rest

/-- The function `processOrderbookData` of `src/yessave.ts` (lines 101-166). -/
def processOrderbookData (ctx : TransformCtx) (coin : String) (l2Data : L2Data) :
    Option CoinOrderbook :=
  match l2Data.levels with
  | none => none
  | some (bidsRaw, asksRaw) =>
    match bidsRaw, asksRaw with
    | some bids0, some asks0 =>
      let displaySymbol := mapGetOr ctx.symbolMapping coin coin
      let midPrice := mapGetOr ctx.midsCache coin "0"
      let bids := bids0.map (fun l => (l.px, l.sz))
      let asks := asks0.map (fun l => (l.px, l.sz))
      let bestBid :=
        match bids with
        | [] => JNum.num 0
        | b :: _ => parseFloat (JField.coerce b.1)
      let bestAsk :=
        match asks with
        | [] => JNum.num 0
        | a :: _ => parseFloat (JField.coerce a.1)
      let spread := JNum.sub bestAsk bestBid
      let spreadPercentage :=
        if JNum.gtZero bestBid then (JNum.mul (JNum.div spread bestBid) (JNum.num 100)).toFixed 4
        else "0"
      let topBidsCount := min 10 bids.length
      let topAsksCount := min 10 asks.length
      let topBids := cumLevels ctx.timestamp (JNum.num 0) 0 (bids.take topBidsCount)
      let topAsks := cumLevels ctx.timestamp (JNum.num 0) 0 (asks.take topAsksCount)
      some
        { symbol := coin
          displaySymbol := displaySymbol
          lastUpdate := ctx.timestamp
          midPrice := midPrice
          spread := spread.toFixed 8
          spreadPercentage := spreadPercentage ++ "%"
          bids := topBids
          asks := topAsks }
    | _, _ => none

end Yessave


/-- The context with empty symbol and mid-price caches and a fixed timestamp,
used for concrete evaluations. -/
def emptyCtx : TransformCtx := { symbolMapping := [], midsCache := [], timestamp := "T" }

/-- Best bid/ask as §4.1 defines it and as both sources compute it: the
`parseFloat` of the first level's price when the side is non-empty, else 0. -/
def bestOf (side : List RawLevel) : JNum :=
  match side with
  | [] => JNum.num 0
  | l :: _ => parseFloat (JField.coerce l.px)

/-- Running partial sums: `runningSums c [s1, s2, ...] = [c+s1, c+s1+s2, ...]`
(the cumulative-depth sequence of §4.1, restarted at `c = 0` for each side). -/
def runningSums (c : ℚ) : List ℚ → List ℚ
  | [] => []
  | s :: r => (c + s) :: runningSums (c + s) r

/-- The `message.data` payload of an inbound frame: the coin identifier and
the level lists (`processOrderbookData` reads only the levels). -/
structure MsgData where
  coin : String
  l2 : L2Data
  deriving DecidableEq

/-- A parsed inbound WebSocket frame as the `ws.on('message')` handlers
inspect it: an optional `channel` tag and an optional `data` payload
(`none` models an absent or null field, which is falsy). -/
structure WsMessage where
  channel : Option String
  data : Option MsgData
  deriving DecidableEq

namespace Yessave

/-- Mutable state of the mode-B message loop: the in-flight save queue
(`saveQueue`, task handles named by creation index), the `processCount` and
`updateCount` counters, and the `updatedCoins` set. -/
structure DispatchState where
  saveQueue : List ℕ
  processCount : ℕ
  updateCount : ℕ
  updatedCoins : List String
  nextTaskId : ℕ
  deriving DecidableEq

/-- JavaScript `Set.add`: insert the element if not already present. -/
def insertCoin (l : List String) (x : String) : List String :=
  if l.contains x then l else x :: l

/-- The `ws.on('message')` handler of src/yessave.ts (lines 251-300): keep
only `l2Book` messages with a data payload and an `@`-prefixed coin,
transform, and on success record the coin, bump the counters and register a
new save task.  When `saveQueue.size > 100` the source evaluates
`Promise.race(Array.from(saveQueue))` and discards the resulting promise
without awaiting it; the handler is synchronous, so control continues
immediately and that statement changes no state. -/
def handleMessage (ctx : TransformCtx) (st : DispatchState) (msg : WsMessage) : DispatchState :=
  if msg.channel = some "l2Book" then
    match msg.data with
    | none => st
    | some d =>
      if ¬ d.coin.startsWith "@" then st
      else
        let st1 := { st with processCount := st.processCount + 1 }
        match processOrderbookData ctx d.coin d.l2 with
        | none => st1
        | some coinData =>
          { st1 with
            updatedCoins := insertCoin st1.updatedCoins coinData.displaySymbol
            updateCount := st1.updateCount + 1
            saveQueue := st1.nextTaskId :: st1.saveQueue
            nextTaskId := st1.nextTaskId + 1 }
  else st

/-- An event visible to the mode-B loop: an inbound frame, or the settling of
an in-flight save task (its `.finally` deletes it from the queue). -/
inductive WsEvent where
  | msg : WsMessage → WsEvent
  | taskDone : ℕ → WsEvent
  deriving DecidableEq

/-- Apply one event to the dispatch state. -/
def stepEvent (ctx : TransformCtx) (st : DispatchState) : WsEvent → DispatchState
  | WsEvent.msg m => handleMessage ctx st m
  | WsEvent.taskDone i => { st with saveQueue := st.saveQueue.erase i }

/-- Run a sequence of events through the mode-B loop. -/
def runEvents (ctx : TransformCtx) (st : DispatchState) (evs : List WsEvent) : DispatchState :=
  evs.foldl (stepEvent ctx) st

/-- The dispatch state at connection start. -/
def initDispatch : DispatchState :=
  { saveQueue := [], processCount := 0, updateCount := 0, updatedCoins := [], nextTaskId := 0 }

/-- A well-formed `l2Book` frame for an `@`-prefixed spot coin, used to drive
concrete runs of the message loop. -/
def spotMsg : WsMessage :=
  { channel := some "l2Book"
    data := some
      { coin := "@107"
        l2 := ⟨some (some [⟨JField.str "1", JField.str "1"⟩],
                     some [⟨JField.str "2", JField.str "1"⟩])⟩ } }

/-- State of the process after the stop signal, as driven by the `SIGINT`
handler of src/yessave.ts (lines 35-47): `snapshot` is `Array.from(saveQueue)`
taken when the handler runs, `resumed` records that `await Promise.all` has
resolved, `exited` that `process.exit(0)` ran.  `nextId` names tasks
registered after the signal (frames still delivered before the socket
closes); save tasks never reject (`saveOrderbookToFile` catches its errors),
so settling means completing or failing with the error logged. -/
structure ShutdownState where
  inFlight : List ℕ
  snapshot : List ℕ
  resumed : Bool
  exited : Bool
  nextId : ℕ
  deriving DecidableEq

/-- Events after the stop signal: a task settling (its `.finally` removes it
from the queue), a late registration, the handler's `await Promise.all`
resolving (enabled exactly when every snapshot task has settled), and
`process.exit(0)` (runs only after the await resolves). -/
inductive SigAction where
  | complete : ℕ → SigAction
  | register : SigAction
  | resume : SigAction
  | exitNow : SigAction
  deriving DecidableEq

/-- One scheduling step after the stop signal; `none` when the action is not
enabled in the given state (nothing runs after `process.exit`). -/
def sigStep (st : ShutdownState) : SigAction → Option ShutdownState
  | SigAction.complete i =>
    if st.exited then none
    else if i ∈ st.inFlight then some { st with inFlight := st.inFlight.erase i } else none
  | SigAction.register =>
    if st.exited then none
    else some { st with inFlight := st.nextId :: st.inFlight, nextId := st.nextId + 1 }
  | SigAction.resume =>
    if st.exited then none
    else if st.resumed then none
    else if ∀ i ∈ st.snapshot, i ∉ st.inFlight then some { st with resumed := true } else none
  | SigAction.exitNow =>
    if st.exited then none
    else if st.resumed then some { st with exited := true } else none

/-- Run a sequence of scheduling steps from a state. -/
def sigRun (st : ShutdownState) : List SigAction → Option ShutdownState
  | [] => some st
  | a :: r =>
    match sigStep st a with
    | none => none
    | some st2 => sigRun st2 r

/-- The state at the stop signal with tasks `0, …, n-1` accepted and in
flight (if the queue is empty the handler skips the await, which the model
matches by letting `resume` fire vacuously). -/
def initShutdown (n : ℕ) : ShutdownState :=
  { inFlight := List.range n, snapshot := List.range n, resumed := false, exited := false, nextId := n }

/-- CSV header line written by `saveOrderbookToFile` (src/yessave.ts 183). -/
def csvHeader : String := "Side,Level,Price,Size,Cumulative,Timestamp\n"

/-- One CSV row of `saveOrderbookToFile`:
`` `SIDE,${level},${price},${size},${cumulative},${timestamp}` `` (template
literals coerce each field to a string). -/
def csvRow (side : String) (l : OrderbookLevel) : String :=
  side ++ "," ++ natToString l.level ++ "," ++ JField.coerce l.price ++ "," ++
    JField.coerce l.size ++ "," ++ l.cumulative ++ "," ++ l.timestamp

/-- JavaScript `rows.join("\n")`. -/
def joinLines : List String → String
  | [] => ""
  | [r] => r
  | r :: rs => r ++ "\n" ++ joinLines rs

/-- The tabular (CSV) serialization built by `saveOrderbookToFile`
(src/yessave.ts lines 183-193): the header plus one row per bid (side
`BID`) then one per ask (side `ASK`). -/
def csvContent (c : CoinOrderbook) : String :=
  csvHeader ++ joinLines (c.bids.map (csvRow "BID") ++ c.asks.map (csvRow "ASK"))

end Yessave

namespace Nosave

/-- Mutable state of the mode-A message loop: the latest-value cache and the
`processCount` counter. -/
structure DispatchState where
  latestOrderbooks : List (String × CoinOrderbook)
  processCount : ℕ
  deriving DecidableEq

/-- JavaScript `Map.set`: overwrite the binding for a key. -/
def mapSet (m : List (String × CoinOrderbook)) (k : String) (v : CoinOrderbook) :
    List (String × CoinOrderbook) :=
  (k, v) :: m.filter (fun p => p.1 != k)

/-- The `ws.on('message')` handler of src/nosave.ts (lines 186-222): keep only
`l2Book` messages with a data payload and an `@`-prefixed coin, transform, and
on success overwrite the cache entry for the coin. -/
def handleMessage (ctx : TransformCtx) (st : DispatchState) (msg : WsMessage) : DispatchState :=
  if msg.channel = some "l2Book" then
    match msg.data with
    | none => st
    | some d =>
      if ¬ d.coin.startsWith "@" then st
      else
        let st1 := { st with processCount := st.processCount + 1 }
        match processOrderbookData ctx d.coin d.l2 with
        | none => st1
        | some coinData =>
          { st1 with latestOrderbooks := mapSet st1.latestOrderbooks coinData.symbol coinData }
  else st

end Nosave

/-- Split a character list at every occurrence of a separator character. -/
def splitOnSep (sep : Char) : List Char → List (List Char)
  | [] => [[]]
  | c :: r =>
    if c = sep then [] :: splitOnSep sep r
    else
      match splitOnSep sep r with
      | [] => [[c]]
      | g :: gs => (c :: g) :: gs

/-- Parse a nonempty all-digit character list as a natural number. -/
def parseNatChars (cs : List Char) : Option ℕ :=
  if cs ≠ [] ∧ cs.all Char.isDigit then some (digitsToNat cs) else none

/-- Modelled from the spec: one data row of the tabular form, read back as a
`(side, rank, price, size, cumulative)` tuple — §6 fixes the columns as
"side, rank, price, size, cumulative, timestamp"; the repository only writes
this form (`saveOrderbookToFile`), no re-parser exists in the source. -/
def parseCsvRow (cs : List Char) : Option (String × ℕ × String × String × String) :=
  match splitOnSep ',' cs with
  | [side, lvl, price, size, cum, _ts] =>
    (parseNatChars lvl).map fun n =>
      (String.mk side, n, String.mk price, String.mk size, String.mk cum)
  | _ => none

/-- Modelled from the spec: re-parse the persisted tabular form — split into
lines, drop the header line, read each remaining row (§6's tabular layout;
the source only writes this file and never reads it back). -/
def parseCsv (s : String) : List (String × ℕ × String × String × String) :=
  ((splitOnSep '\n' s.toList).drop 1).filterMap parseCsvRow

/-- The in-memory `(side, rank, price, size, cumulative)` tuples of a record,
bids first then asks. -/
def depthTuples (c : CoinOrderbook) : List (String × ℕ × String × String × String) :=
  c.bids.map (fun l => ("BID", l.level, JField.coerce l.price, JField.coerce l.size, l.cumulative)) ++
    c.asks.map (fun l => ("ASK", l.level, JField.coerce l.price, JField.coerce l.size, l.cumulative))

/-- A field string that embeds losslessly in the comma/newline separated
tabular form: neither separator occurs in it. -/
def csvSafeStr (s : String) : Prop := ',' ∉ s.toList ∧ '\n' ∉ s.toList

/-- All textual fields of a level are separator-free (§3 requires decimal
strings, which are). -/
def csvSafeLevel (l : OrderbookLevel) : Prop :=
  csvSafeStr (JField.coerce l.price) ∧ csvSafeStr (JField.coerce l.size) ∧
    csvSafeStr l.cumulative ∧ csvSafeStr l.timestamp

/-- Every level of the record has separator-free fields. -/
def CsvSafe (c : CoinOrderbook) : Prop := ∀ l ∈ c.bids ++ c.asks, csvSafeLevel l

/-! Helper lemmas. -/

theorem cumLevels_eq (ts : String) (c : JNum) (i : ℕ) (l : List (JField × JField)) :
    Nosave.cumLevels ts c i l = Yessave.cumLevels ts c i l := by
  induction l generalizing c i with
  | nil => rfl
  | cons x r ih =>
    obtain ⟨px, sz⟩ := x
    simp [Nosave.cumLevels, Yessave.cumLevels, ih]

@[simp]
theorem JNum.sub_num (a b : ℚ) : JNum.sub (JNum.num a) (JNum.num b) = JNum.num (a - b) := rfl

@[simp]
theorem JNum.add_num (a b : ℚ) : JNum.add (JNum.num a) (JNum.num b) = JNum.num (a + b) := rfl

@[simp]
theorem JNum.mul_num (a b : ℚ) : JNum.mul (JNum.num a) (JNum.num b) = JNum.num (a * b) := rfl

theorem JNum.div_num {b : ℚ} (a : ℚ) (h : b ≠ 0) :
    JNum.div (JNum.num a) (JNum.num b) = JNum.num (a / b) := by
  simp [JNum.div, h]

@[simp]
theorem JNum.gtZero_num (a : ℚ) : JNum.gtZero (JNum.num a) = decide (0 < a) := rfl

/-! C9 — the two Snapshot Transformers are extensionally equal. -/

theorem process_eq (ctx : TransformCtx) (coin : String) (l2 : L2Data) :
    Nosave.processOrderbookData ctx coin l2 = Yessave.processOrderbookData ctx coin l2 := by
  obtain ⟨levels⟩ := l2
  cases levels with
  | none => rfl
  | some p =>
    obtain ⟨b, a⟩ := p
    cases b with
    | none => rfl
    | some bids0 =>
      cases a with
      | none => rfl
      | some asks0 =>
        simp [Nosave.processOrderbookData, Yessave.processOrderbookData, cumLevels_eq]

/-- C9: for every context (symbol mapping, mid-price cache, abstracted
timestamp), coin string and raw payload, `processOrderbookData` of
src/nosave.ts and `processOrderbookData` of src/yessave.ts return identical
results. -/
theorem transformers_extensionally_equal (ctx : TransformCtx) (coin : String) (l2 : L2Data) :
    Nosave.processOrderbookData ctx coin l2 = Yessave.processOrderbookData ctx coin l2 :=
  process_eq ctx coin l2

/-! C5 — the worked example of §8. -/

/-- C5: the example input with bids `[("100.00","2"), ("99.50","3")]` and asks
`[("100.50","1"), ("101.00","4")]` yields spread `"0.50000000"`,
spreadPercentage `"0.5000%"`, bid cumulative sequence `"2.0000", "5.0000"`
and ask cumulative sequence `"1.0000", "5.0000"`, with ranks 1, 2 on each
side (best bid 100.00 and best ask 100.50 are the first level of each side,
visible in the spread fields and the preserved price strings). -/
theorem example_snapshot_output :
    Yessave.processOrderbookData emptyCtx "@1"
      ⟨some (some [⟨JField.str "100.00", JField.str "2"⟩, ⟨JField.str "99.50", JField.str "3"⟩],
             some [⟨JField.str "100.50", JField.str "1"⟩, ⟨JField.str "101.00", JField.str "4"⟩])⟩ =
      some
        { symbol := "@1"
          displaySymbol := "@1"
          lastUpdate := "T"
          midPrice := "0"
          spread := "0.50000000"
          spreadPercentage := "0.5000%"
          bids :=
            [{ level := 1, price := JField.str "100.00", size := JField.str "2", cumulative := "2.0000", timestamp := "T" },
             { level := 2, price := JField.str "99.50", size := JField.str "3", cumulative := "5.0000", timestamp := "T" }]
          asks :=
            [{ level := 1, price := JField.str "100.50", size := JField.str "1", cumulative := "1.0000", timestamp := "T" },
             { level := 2, price := JField.str "101.00", size := JField.str "4", cumulative := "5.0000", timestamp := "T" }] } := by
  with_unfolding_all rfl

/-! C3 — failure policy of the transformer. -/

/-- C3 counterexample: a snapshot whose best-bid price string `"abc"` is
non-numeric is malformed in the claim's sense, yet `processOrderbookData`
does not return null: `parseFloat` yields NaN without throwing and the
function returns a record with `"NaN"` in the spread field. -/
theorem nonnumeric_price_not_rejected :
    Yessave.processOrderbookData emptyCtx "@1"
      ⟨some (some [⟨JField.str "abc", JField.str "1"⟩], some [])⟩ =
      some
        { symbol := "@1"
          displaySymbol := "@1"
          lastUpdate := "T"
          midPrice := "0"
          spread := "NaN"
          spreadPercentage := "0%"
          bids := [{ level := 1, price := JField.str "abc", size := JField.str "1", cumulative := "1.0000", timestamp := "T" }]
          asks := [] } := by
  with_unfolding_all rfl

/-- C3 amended: the transformer reports failure (null) exactly when the
payload's `levels` structure is missing or a side is not a list (the only
paths that throw inside the `try`); a snapshot whose price or size strings
are non-numeric (or whose level fields are missing) is not rejected — it
yields a record, with `"NaN"` where the arithmetic met NaN — and in either
case only that message is affected and the caller keeps processing. -/
theorem transform_fails_iff_levels_malformed (ctx : TransformCtx) (coin : String) (l2 : L2Data) :
    (Yessave.processOrderbookData ctx coin l2 = none ↔
      (l2.levels = none ∨ ∃ p, l2.levels = some p ∧ (p.1 = none ∨ p.2 = none))) ∧
    (Nosave.processOrderbookData ctx coin l2 = none ↔
      (l2.levels = none ∨ ∃ p, l2.levels = some p ∧ (p.1 = none ∨ p.2 = none))) := by
  rw [process_eq, and_self]
  obtain ⟨levels⟩ := l2
  cases levels with
  | none => simp [Yessave.processOrderbookData]
  | some p =>
    obtain ⟨b, a⟩ := p
    cases b with
    | none => simp [Yessave.processOrderbookData]
    | some bids0 =>
      cases a with
      | none => simp [Yessave.processOrderbookData]
      | some asks0 => simp [Yessave.processOrderbookData]

theorem process_shape (ctx : TransformCtx) (coin : String) (bl al : List RawLevel) :
    Yessave.processOrderbookData ctx coin ⟨some (some bl, some al)⟩ =
      some
        { symbol := coin
          displaySymbol := mapGetOr ctx.symbolMapping coin coin
          lastUpdate := ctx.timestamp
          midPrice := mapGetOr ctx.midsCache coin "0"
          spread := (JNum.sub (bestOf al) (bestOf bl)).toFixed 8
          spreadPercentage :=
            (if JNum.gtZero (bestOf bl) then
              (JNum.mul (JNum.div (JNum.sub (bestOf al) (bestOf bl)) (bestOf bl)) (JNum.num 100)).toFixed 4
            else "0") ++ "%"
          bids := Yessave.cumLevels ctx.timestamp (JNum.num 0) 0
            ((bl.take (min 10 bl.length)).map (fun l => (l.px, l.sz)))
          asks := Yessave.cumLevels ctx.timestamp (JNum.num 0) 0
            ((al.take (min 10 al.length)).map (fun l => (l.px, l.sz))) } := by
  cases bl <;> cases al <;>
    simp [Yessave.processOrderbookData, bestOf, List.map_take]

/-! C4 — the spreadPercentage field. -/

/-- C4 counterexample: on a snapshot with no bids (so bestBid is 0 ≤ 0) the
output `spreadPercentage` field is the string `"0%"` — the source appends a
percent sign (`` `${spreadPercentage}%` ``) — not the string `"0"` the claim
states. -/
theorem spreadPercentage_is_percent_string :
    (Yessave.processOrderbookData emptyCtx "@1"
        ⟨some (some [], some [⟨JField.str "1", JField.str "1"⟩])⟩).map
      CoinOrderbook.spreadPercentage = some "0%" ∧ ("0%" : String) ≠ "0" := by
  constructor
  · with_unfolding_all rfl
  · decide

/-- C4 amended: when the parsed best bid is a number `b` and the parsed best
ask a number `a` (each side's first price, 0 for an empty side), the
`spreadPercentage` field equals `(a − b) / b × 100` rendered by `toFixed(4)`
followed by a percent sign when `b > 0`, and equals `"0%"` when `b ≤ 0` —
i.e. the claim's formula and threshold are right but the field carries a
trailing `"%"`. -/
theorem spreadPercentage_formula (ctx : TransformCtx) (coin : String)
    (bl al : List RawLevel) (b a : ℚ)
    (hb : bestOf bl = JNum.num b) (ha : bestOf al = JNum.num a) :
    (Yessave.processOrderbookData ctx coin ⟨some (some bl, some al)⟩).map
      CoinOrderbook.spreadPercentage =
      some (if 0 < b then (JNum.num ((a - b) / b * 100)).toFixed 4 ++ "%" else "0%") := by
  rw [process_shape]
  simp only [Option.map]
  rw [hb] at *
  rw [ha]
  simp only [JNum.sub_num, JNum.gtZero_num]
  by_cases hb0 : 0 < b
  · rw [JNum.div_num _ (ne_of_gt hb0), JNum.mul_num]
    simp [hb0]
  · simp [hb0]

/-- C4 witness: the amended statement evaluated on the §8 example, where the
best bid is 100 and the best ask 201/2 = 100.50, giving `"0.5000%"`. -/
theorem spreadPercentage_formula_witness :
    (Yessave.processOrderbookData emptyCtx "@1"
        ⟨some (some [⟨JField.str "100.00", JField.str "2"⟩],
               some [⟨JField.str "100.50", JField.str "1"⟩])⟩).map
      CoinOrderbook.spreadPercentage =
      some (if 0 < (100 : ℚ) then
        (JNum.num (((201 / 2 : ℚ) - 100) / 100 * 100)).toFixed 4 ++ "%" else "0%") :=
  spreadPercentage_formula emptyCtx "@1" _ _ 100 (201 / 2)
    (by with_unfolding_all rfl) (by with_unfolding_all rfl)

/-! C10 — an empty ask side is not malformed. -/

/-- C10: when the ask side is an empty list and the bid side parses to a
positive best bid `b`, the transformer does not fail: the best ask is taken
as 0 (`bestOf [] = 0`), the spread field is `(0 − b)` formatted to 8 decimal
places — a negative value — and the spreadPercentage field is the negative
percentage `(0 − b)/b × 100` formatted to 4 decimal places (with the percent
sign the source appends). -/
theorem empty_asks_negative_spread (ctx : TransformCtx) (coin : String)
    (bl : List RawLevel) (b : ℚ) (hb : bestOf bl = JNum.num b) (hb0 : 0 < b) :
    (Yessave.processOrderbookData ctx coin ⟨some (some bl, some [])⟩).isSome = true ∧
    bestOf [] = JNum.num 0 ∧
    (Yessave.processOrderbookData ctx coin ⟨some (some bl, some [])⟩).map
      CoinOrderbook.spread = some ((JNum.num (0 - b)).toFixed 8) ∧
    0 - b < 0 ∧
    (Yessave.processOrderbookData ctx coin ⟨some (some bl, some [])⟩).map
      CoinOrderbook.spreadPercentage =
      some ((JNum.num ((0 - b) / b * 100)).toFixed 4 ++ "%") ∧
    (0 - b) / b * 100 < 0 := by
  have hneg : (0 : ℚ) - b < 0 := by linarith
  have hneg2 : (0 - b) / b * 100 < 0 :=
    mul_neg_of_neg_of_pos (div_neg_of_neg_of_pos hneg hb0) (by norm_num)
  rw [process_shape]
  simp only [Option.isSome_some, Option.map]
  rw [hb]
  refine ⟨trivial, rfl, ?_, hneg, ?_, hneg2⟩
  · simp [bestOf]
  · simp only [bestOf, JNum.sub_num, JNum.gtZero_num,
      JNum.div_num _ (ne_of_gt hb0), JNum.mul_num, decide_eq_true_eq, hb0, if_pos]

/-- C10 witness: a single bid at price 100 and no asks yields spread
`"-100.00000000"` and spreadPercentage `"-100.0000%"`. -/
theorem empty_asks_negative_spread_witness :
    (Yessave.processOrderbookData emptyCtx "@1"
        ⟨some (some [⟨JField.str "100.00", JField.str "2"⟩], some [])⟩).isSome = true ∧
    bestOf [] = JNum.num 0 ∧
    (Yessave.processOrderbookData emptyCtx "@1"
        ⟨some (some [⟨JField.str "100.00", JField.str "2"⟩], some [])⟩).map
      CoinOrderbook.spread = some ((JNum.num (0 - 100)).toFixed 8) ∧
    (0 : ℚ) - 100 < 0 ∧
    (Yessave.processOrderbookData emptyCtx "@1"
        ⟨some (some [⟨JField.str "100.00", JField.str "2"⟩], some [])⟩).map
      CoinOrderbook.spreadPercentage =
      some ((JNum.num ((0 - 100) / 100 * 100)).toFixed 4 ++ "%") ∧
    ((0 : ℚ) - 100) / 100 * 100 < 0 :=
  empty_asks_negative_spread emptyCtx "@1" _ 100 (by with_unfolding_all rfl) (by norm_num)

/-! C8 — non-matching messages are dropped silently. -/

/-- C8: a message that is not on the `l2Book` channel, lacks a data payload,
or carries a coin without the `@` prefix leaves the dispatch state — the
mode-A latest-value cache, the mode-B save queue, and the process counters —
completely unchanged: the transformer is never invoked and no sink hand-off
occurs. -/
theorem nonmatching_message_state_unchanged (ctxY ctxN : TransformCtx)
    (stY : Yessave.DispatchState) (stN : Nosave.DispatchState) (msg : WsMessage)
    (h : msg.channel ≠ some "l2Book" ∨ msg.data = none ∨
      ∃ d, msg.data = some d ∧ d.coin.startsWith "@" = false) :
    Yessave.handleMessage ctxY stY msg = stY ∧ Nosave.handleMessage ctxN stN msg = stN := by
  rcases h with h | h | ⟨d, hd, hpre⟩
  · simp [Yessave.handleMessage, Nosave.handleMessage, h]
  · by_cases hc : msg.channel = some "l2Book" <;>
      simp [Yessave.handleMessage, Nosave.handleMessage, hc, h]
  · by_cases hc : msg.channel = some "l2Book" <;>
      simp [Yessave.handleMessage, Nosave.handleMessage, hc, hd, hpre]

/-- C8 witness: a `trades`-channel frame with no payload changes neither
variant's state. -/
theorem nonmatching_message_state_unchanged_witness :
    Yessave.handleMessage emptyCtx Yessave.initDispatch ⟨some "trades", none⟩ =
      Yessave.initDispatch ∧
    Nosave.handleMessage emptyCtx ⟨[], 0⟩ ⟨some "trades", none⟩ = ⟨[], 0⟩ :=
  nonmatching_message_state_unchanged emptyCtx emptyCtx Yessave.initDispatch ⟨[], 0⟩
    ⟨some "trades", none⟩ (Or.inl (by decide))

/-! C1 — the backpressure wait does not happen. -/

theorem handle_spotMsg (st : Yessave.DispatchState) :
    Yessave.handleMessage emptyCtx st Yessave.spotMsg =
      { st with
        processCount := st.processCount + 1
        updatedCoins := Yessave.insertCoin st.updatedCoins "@107"
        updateCount := st.updateCount + 1
        saveQueue := st.nextTaskId :: st.saveQueue
        nextTaskId := st.nextTaskId + 1 } := by
  with_unfolding_all rfl

theorem run_spot_replicate (n : ℕ) : ∀ st : Yessave.DispatchState,
    (Yessave.runEvents emptyCtx st
        (List.replicate n (Yessave.WsEvent.msg Yessave.spotMsg))).saveQueue.length =
      st.saveQueue.length + n := by
  induction n with
  | zero => intro st; rfl
  | succ k ih =>
    intro st
    rw [List.replicate_succ]
    have h1 : Yessave.runEvents emptyCtx st
        (Yessave.WsEvent.msg Yessave.spotMsg ::
          List.replicate k (Yessave.WsEvent.msg Yessave.spotMsg)) =
        Yessave.runEvents emptyCtx (Yessave.handleMessage emptyCtx st Yessave.spotMsg)
          (List.replicate k (Yessave.WsEvent.msg Yessave.spotMsg)) := rfl
    rw [h1, handle_spotMsg, ih]
    simp only [List.length_cons]
    omega

/-- C1 (the code, evaluated at the failing scenario): 150 valid `l2Book`
frames arrive and — the writes being arbitrarily slow — no save task
completes.  The source's `Promise.race(Array.from(saveQueue))` at
`saveQueue.size > 100` is never awaited (the handler is synchronous and
discards the promise), so dispatch never waits: all 150 registrations go
through and the in-flight count reaches 150, far past the high-water mark of
100, contradicting the backpressure the code's own comment (memory
protection by limiting parallel work) and the spec describe. -/
theorem backpressure_race_never_awaited :
    (Yessave.runEvents emptyCtx Yessave.initDispatch
        (List.replicate 150 (Yessave.WsEvent.msg Yessave.spotMsg))).saveQueue.length = 150 ∧
    100 < (Yessave.runEvents emptyCtx Yessave.initDispatch
        (List.replicate 150 (Yessave.WsEvent.msg Yessave.spotMsg))).saveQueue.length := by
  have h := run_spot_replicate 150 Yessave.initDispatch
  constructor
  · rw [h]; rfl
  · rw [h]; norm_num

/-! C2 — shutdown drains every accepted task. -/

theorem sigStep_inv {n : ℕ} {st st2 : Yessave.ShutdownState} {a : Yessave.SigAction}
    (h1 : st.snapshot = List.range n) (h2 : n ≤ st.nextId)
    (h3 : st.resumed = true → ∀ i ∈ st.snapshot, i ∉ st.inFlight)
    (h4 : st.exited = true → st.resumed = true)
    (hs : Yessave.sigStep st a = some st2) :
    st2.snapshot = List.range n ∧ n ≤ st2.nextId ∧
      (st2.resumed = true → ∀ i ∈ st2.snapshot, i ∉ st2.inFlight) ∧
      (st2.exited = true → st2.resumed = true) := by
  cases a with
  | complete i =>
    simp only [Yessave.sigStep] at hs
    split_ifs at hs with hex hmem
    injection hs with hs
    subst hs
    refine ⟨h1, h2, ?_, h4⟩
    intro hr j hj hmem2
    exact h3 hr j hj (List.mem_of_mem_erase hmem2)
  | register =>
    simp only [Yessave.sigStep] at hs
    split_ifs at hs with hex
    injection hs with hs
    subst hs
    refine ⟨h1, Nat.le_succ_of_le h2, ?_, h4⟩
    intro hr j hj hmem2
    rcases List.mem_cons.mp hmem2 with hj2 | hmem3
    · rw [h1] at hj
      have := List.mem_range.mp hj
      omega
    · exact h3 hr j hj hmem3
  | resume =>
    simp only [Yessave.sigStep] at hs
    split_ifs at hs with hex hres hall
    injection hs with hs
    subst hs
    exact ⟨h1, h2, fun _ => hall, fun _ => rfl⟩
  | exitNow =>
    simp only [Yessave.sigStep] at hs
    split_ifs at hs with hex hres
    injection hs with hs
    subst hs
    exact ⟨h1, h2, fun _ => h3 hres, fun _ => hres⟩

theorem sigRun_inv : ∀ (acts : List Yessave.SigAction) (st st2 : Yessave.ShutdownState),
    st.snapshot = List.range n → n ≤ st.nextId →
    (st.resumed = true → ∀ i ∈ st.snapshot, i ∉ st.inFlight) →
    (st.exited = true → st.resumed = true) →
    Yessave.sigRun st acts = some st2 →
    st2.snapshot = List.range n ∧ n ≤ st2.nextId ∧
      (st2.resumed = true → ∀ i ∈ st2.snapshot, i ∉ st2.inFlight) ∧
      (st2.exited = true → st2.resumed = true)
  | [], st, st2, h1, h2, h3, h4, hr => by
    injection hr with hr
    subst hr
    exact ⟨h1, h2, h3, h4⟩
  | a :: r, st, st2, h1, h2, h3, h4, hr => by
    simp only [Yessave.sigRun] at hr
    cases hstep : Yessave.sigStep st a with
    | none => rw [hstep] at hr; cases hr
    | some stm =>
      rw [hstep] at hr
      obtain ⟨g1, g2, g3, g4⟩ := sigStep_inv h1 h2 h3 h4 hstep
      exact sigRun_inv r stm st2 g1 g2 g3 g4 hr

/-- C2: from the state at the stop signal with tasks `0 … n-1` accepted and
in flight, along every schedule of completions, late registrations, the
handler's `await Promise.all(Array.from(saveQueue))` resuming and
`process.exit(0)` — exit only being enabled after the await resolves — if
the process has exited then every previously-accepted task has settled
(completed or failed, its `.finally` having removed it from the queue): no
accepted task is abandoned mid-write. -/
theorem shutdown_drains_all_accepted_tasks (n : ℕ) (acts : List Yessave.SigAction)
    (st : Yessave.ShutdownState)
    (h : Yessave.sigRun (Yessave.initShutdown n) acts = some st)
    (hex : st.exited = true) : ∀ i, i < n → i ∉ st.inFlight := by
  have inv := sigRun_inv acts (Yessave.initShutdown n) st rfl (le_refl n)
    (by simp [Yessave.initShutdown]) (by simp [Yessave.initShutdown]) h
  intro i hi
  refine inv.2.2.1 (inv.2.2.2 hex) i ?_
  rw [inv.1]
  exact List.mem_range.mpr hi

/-- C2 witness: one in-flight task, the schedule lets it complete, the await
resolves and the process exits; the task is indeed gone from the queue. -/
theorem shutdown_drains_all_accepted_tasks_witness :
    (0 : ℕ) ∉ (Yessave.ShutdownState.mk [] [0] true true 1).inFlight :=
  shutdown_drains_all_accepted_tasks 1
    [Yessave.SigAction.complete 0, Yessave.SigAction.resume, Yessave.SigAction.exitNow]
    (Yessave.ShutdownState.mk [] [0] true true 1) (by decide) rfl 0 (by decide)

/-! C6 — top-N selection, ranks and cumulative depth. -/

theorem cumLevels_length (ts : String) (c : JNum) (i : ℕ) (l : List (JField × JField)) :
    (Yessave.cumLevels ts c i l).length = l.length := by
  induction l generalizing c i with
  | nil => rfl
  | cons x r ih =>
    obtain ⟨px, sz⟩ := x
    simp [Yessave.cumLevels, ih]

theorem cumLevels_map_price (ts : String) (c : JNum) (i : ℕ) (l : List (JField × JField)) :
    (Yessave.cumLevels ts c i l).map OrderbookLevel.price = l.map Prod.fst := by
  induction l generalizing c i with
  | nil => rfl
  | cons x r ih =>
    obtain ⟨px, sz⟩ := x
    simp [Yessave.cumLevels, ih]

theorem cumLevels_map_size (ts : String) (c : JNum) (i : ℕ) (l : List (JField × JField)) :
    (Yessave.cumLevels ts c i l).map OrderbookLevel.size = l.map Prod.snd := by
  induction l generalizing c i with
  | nil => rfl
  | cons x r ih =>
    obtain ⟨px, sz⟩ := x
    simp [Yessave.cumLevels, ih]

theorem cumLevels_map_level (ts : String) (c : JNum) (i : ℕ) (l : List (JField × JField)) :
    (Yessave.cumLevels ts c i l).map OrderbookLevel.level = List.range' (i + 1) l.length := by
  induction l generalizing c i with
  | nil => rfl
  | cons x r ih =>
    obtain ⟨px, sz⟩ := x
    simp [Yessave.cumLevels, ih, List.range'_succ]

theorem cumLevels_map_cumulative (ts : String) :
    ∀ (l : List (JField × JField)) (qs : List ℚ) (c0 : ℚ) (i : ℕ),
    l.map (fun p => parseFloat (JField.coerce p.2)) = qs.map JNum.num →
    (Yessave.cumLevels ts (JNum.num c0) i l).map OrderbookLevel.cumulative =
      (runningSums c0 qs).map (fun q => (JNum.num q).toFixed 4)
  | [], qs, c0, i, h => by
    have : qs = [] := by
      cases qs with
      | nil => rfl
      | cons q r => simp at h
    subst this
    rfl
  | (px, sz) :: r, qs, c0, i, h => by
    cases qs with
    | nil => simp at h
    | cons q qr =>
      simp only [List.map_cons, List.cons.injEq] at h
      obtain ⟨hq, hr⟩ := h
      simp only [Yessave.cumLevels, runningSums, List.map_cons, hq, JNum.add_num]
      exact congrArg (List.cons _) (cumLevels_map_cumulative ts r qr (c0 + q) (i + 1) hr)

theorem runningSums_chain :
    ∀ (qs : List ℚ) (c0 : ℚ), (∀ q ∈ qs, 0 ≤ q) →
      List.Chain' (fun x y : ℚ => x ≤ y) (runningSums c0 qs)
  | [], _, _ => by simp [runningSums]
  | [q], c0, h => by simp [runningSums]
  | q :: q2 :: r, c0, h => by
    have hc := runningSums_chain (q2 :: r) (c0 + q)
      (fun x hx => h x (List.mem_cons_of_mem _ hx))
    simp only [runningSums] at hc ⊢
    rw [List.chain'_cons]
    refine ⟨?_, hc⟩
    have := h q2 (by simp)
    linarith

/-- C6: on a structurally valid snapshot whose selected size strings parse to
non-negative numbers, each output side holds exactly the first
`min(10, length)` entries of the feed in order (prices and sizes preserved),
so at most 10 levels; the rank fields are `1, 2, …`, strictly increasing; and
the cumulative fields render the running sums of the selected sizes, a
non-decreasing sequence restarted at zero for each side. -/
theorem topN_levels_and_cumulative (ctx : TransformCtx) (coin : String)
    (bl al : List RawLevel) (qsB qsA : List ℚ) (c : CoinOrderbook)
    (hB : (bl.take (min 10 bl.length)).map (fun l => parseFloat (JField.coerce l.sz)) =
      qsB.map JNum.num)
    (hA : (al.take (min 10 al.length)).map (fun l => parseFloat (JField.coerce l.sz)) =
      qsA.map JNum.num)
    (hB0 : ∀ q ∈ qsB, 0 ≤ q) (hA0 : ∀ q ∈ qsA, 0 ≤ q)
    (h : Yessave.processOrderbookData ctx coin ⟨some (some bl, some al)⟩ = some c) :
    (c.bids.length = min 10 bl.length ∧ c.bids.length ≤ 10 ∧
     c.bids.map OrderbookLevel.price = (bl.take (min 10 bl.length)).map RawLevel.px ∧
     c.bids.map OrderbookLevel.size = (bl.take (min 10 bl.length)).map RawLevel.sz ∧
     c.bids.map OrderbookLevel.level = List.range' 1 (min 10 bl.length) ∧
     c.bids.map OrderbookLevel.cumulative =
       (runningSums 0 qsB).map (fun q => (JNum.num q).toFixed 4) ∧
     List.Chain' (fun x y : ℚ => x ≤ y) (runningSums 0 qsB)) ∧
    (c.asks.length = min 10 al.length ∧ c.asks.length ≤ 10 ∧
     c.asks.map OrderbookLevel.price = (al.take (min 10 al.length)).map RawLevel.px ∧
     c.asks.map OrderbookLevel.size = (al.take (min 10 al.length)).map RawLevel.sz ∧
     c.asks.map OrderbookLevel.level = List.range' 1 (min 10 al.length) ∧
     c.asks.map OrderbookLevel.cumulative =
       (runningSums 0 qsA).map (fun q => (JNum.num q).toFixed 4) ∧
     List.Chain' (fun x y : ℚ => x ≤ y) (runningSums 0 qsA)) := by
  rw [process_shape] at h
  injection h with h
  subst h
  have hminB : min (min 10 bl.length) bl.length = min 10 bl.length :=
    min_eq_left (min_le_right _ _)
  have hminA : min (min 10 al.length) al.length = min 10 al.length :=
    min_eq_left (min_le_right _ _)
  constructor
  · refine ⟨?_, ?_, ?_, ?_, ?_, ?_, runningSums_chain qsB 0 hB0⟩
    · simp [cumLevels_length, List.length_take, hminB]
    · simp only [cumLevels_length, List.length_map, List.length_take, hminB]
      exact min_le_left _ _
    · rw [cumLevels_map_price, List.map_map]
      rfl
    · rw [cumLevels_map_size, List.map_map]
      rfl
    · simp [cumLevels_map_level, List.length_take, hminB]
    · refine cumLevels_map_cumulative ctx.timestamp _ qsB 0 0 ?_
      rw [List.map_map]
      exact hB
  · refine ⟨?_, ?_, ?_, ?_, ?_, ?_, runningSums_chain qsA 0 hA0⟩
    · simp [cumLevels_length, List.length_take, hminA]
    · simp only [cumLevels_length, List.length_map, List.length_take, hminA]
      exact min_le_left _ _
    · rw [cumLevels_map_price, List.map_map]
      rfl
    · rw [cumLevels_map_size, List.map_map]
      rfl
    · simp [cumLevels_map_level, List.length_take, hminA]
    · refine cumLevels_map_cumulative ctx.timestamp _ qsA 0 0 ?_
      rw [List.map_map]
      exact hA

/-- C6 witness: a one-bid no-ask snapshot with size "2"; the selected bid
side has length `min 10 1 = 1`. -/
theorem topN_levels_and_cumulative_witness :
    (CoinOrderbook.mk "@1" "@1" "T" "0" "-1.00000000" "-100.0000%"
        [OrderbookLevel.mk 1 (JField.str "1") (JField.str "2") "2.0000" "T"] []).bids.length =
      min 10 (List.length [RawLevel.mk (JField.str "1") (JField.str "2")]) :=
  (topN_levels_and_cumulative emptyCtx "@1" [⟨JField.str "1", JField.str "2"⟩] [] [2] []
    (CoinOrderbook.mk "@1" "@1" "T" "0" "-1.00000000" "-100.0000%"
      [OrderbookLevel.mk 1 (JField.str "1") (JField.str "2") "2.0000" "T"] [])
    (by with_unfolding_all rfl) rfl
    (by intro q hq; rw [List.mem_singleton] at hq; subst hq; norm_num)
    (by simp)
    (by with_unfolding_all rfl)).1.1

/-! C7 — tabular round trip. -/

theorem charVal_digitChar {d : ℕ} (h : d < 10) : charVal (digitChar d) = d := by
  interval_cases d <;> rfl

theorem isDigit_digitChar {d : ℕ} (h : d < 10) : (digitChar d).isDigit = true := by
  interval_cases d <;> rfl

theorem digitsToNat_append_singleton (xs : List Char) (c : Char) :
    digitsToNat (xs ++ [c]) = 10 * digitsToNat xs + charVal c := by
  simp [digitsToNat, List.foldl_append]

theorem natToCharsAux_spec :
    ∀ (fuel n : ℕ), n < 10 ^ (fuel + 1) →
      (natToCharsAux (fuel + 1) n).all Char.isDigit = true ∧
      natToCharsAux (fuel + 1) n ≠ [] ∧
      digitsToNat (natToCharsAux (fuel + 1) n) = n
  | 0, n, h => by
    have hn : n < 10 := by simpa using h
    simp only [natToCharsAux, if_pos hn]
    refine ⟨by simp [isDigit_digitChar hn], by simp, ?_⟩
    simp [digitsToNat, charVal_digitChar hn]
  | fuel + 1, n, h => by
    by_cases hn : n < 10
    · simp only [natToCharsAux, if_pos hn]
      refine ⟨by simp [isDigit_digitChar hn], by simp, ?_⟩
      simp [digitsToNat, charVal_digitChar hn]
    · have hdiv : n / 10 < 10 ^ (fuel + 1) := by
        rw [Nat.div_lt_iff_lt_mul (by norm_num)]
        calc n < 10 ^ (fuel + 1 + 1) := h
        _ = 10 ^ (fuel + 1) * 10 := by ring
      obtain ⟨ha, hne, hval⟩ := natToCharsAux_spec fuel (n / 10) hdiv
      have hm : n % 10 < 10 := Nat.mod_lt _ (by norm_num)
      have hstep : natToCharsAux (fuel + 1 + 1) n =
          natToCharsAux (fuel + 1) (n / 10) ++ [digitChar (n % 10)] := by
        conv_lhs => rw [natToCharsAux]
        rw [if_neg hn]
      rw [hstep]
      refine ⟨?_, by simp, ?_⟩
      · rw [List.all_append]
        simp [ha, isDigit_digitChar hm]
      · rw [digitsToNat_append_singleton, hval, charVal_digitChar hm]
        omega

theorem natToChars_spec (n : ℕ) :
    (natToChars n).all Char.isDigit = true ∧ natToChars n ≠ [] ∧
      digitsToNat (natToChars n) = n := by
  refine natToCharsAux_spec n n ?_
  calc n < 10 ^ n := Nat.lt_pow_self (by norm_num) n
  _ ≤ 10 ^ (n + 1) := Nat.pow_le_pow_right (by norm_num) (Nat.le_succ n)

theorem parseNatChars_natToChars (n : ℕ) : parseNatChars (natToChars n) = some n := by
  obtain ⟨ha, hne, hval⟩ := natToChars_spec n
  rw [parseNatChars, if_pos ⟨hne, ha⟩, hval]

theorem not_mem_of_all_isDigit {cs : List Char} {c : Char}
    (hc : c.isDigit = false) (hall : cs.all Char.isDigit = true) : c ∉ cs := by
  intro hmem
  have := List.all_eq_true.mp hall c hmem
  rw [this] at hc
  cases hc

theorem splitOnSep_of_not_mem {sep : Char} :
    ∀ {xs : List Char}, sep ∉ xs → splitOnSep sep xs = [xs]
  | [], _ => rfl
  | c :: r, h => by
    have hc : ¬ c = sep := fun hcc => h (hcc ▸ List.mem_cons_self c r)
    have hr : sep ∉ r := fun hrr => h (List.mem_cons_of_mem c hrr)
    rw [splitOnSep, if_neg hc, splitOnSep_of_not_mem hr]

theorem splitOnSep_append {sep : Char} :
    ∀ {xs : List Char} (ys : List Char), sep ∉ xs →
      splitOnSep sep (xs ++ sep :: ys) = xs :: splitOnSep sep ys
  | [], ys, _ => by
    rw [List.nil_append, splitOnSep, if_pos rfl]
  | c :: r, ys, h => by
    have hc : ¬ c = sep := fun hcc => h (hcc ▸ List.mem_cons_self c r)
    have hr : sep ∉ r := fun hrr => h (List.mem_cons_of_mem c hrr)
    rw [List.cons_append, splitOnSep, if_neg hc, splitOnSep_append ys hr]

theorem toList_append (a b : String) : (a ++ b).toList = a.toList ++ b.toList := rfl

theorem mk_toList (s : String) : String.mk s.toList = s := rfl

theorem csvRow_toList (side : String) (l : OrderbookLevel) :
    (Yessave.csvRow side l).toList =
      side.toList ++ (',' :: (natToChars l.level ++ (',' :: ((JField.coerce l.price).toList ++
        (',' :: ((JField.coerce l.size).toList ++ (',' :: (l.cumulative.toList ++
        (',' :: l.timestamp.toList))))))))) := by
  simp [Yessave.csvRow, toList_append, natToString]

theorem parseCsvRow_csvRow (side : String) (l : OrderbookLevel)
    (hside : ',' ∉ side.toList) (hl : csvSafeLevel l) :
    parseCsvRow (Yessave.csvRow side l).toList =
      some (side, l.level, JField.coerce l.price, JField.coerce l.size, l.cumulative) := by
  obtain ⟨⟨hp, _⟩, ⟨hs, _⟩, ⟨hc, _⟩, ⟨ht, _⟩⟩ := hl
  have hdig : ',' ∉ natToChars l.level :=
    not_mem_of_all_isDigit (by decide) (natToChars_spec l.level).1
  rw [parseCsvRow, csvRow_toList]
  rw [splitOnSep_append _ hside, splitOnSep_append _ hdig, splitOnSep_append _ hp,
      splitOnSep_append _ hs, splitOnSep_append _ hc, splitOnSep_of_not_mem ht]
  simp [parseNatChars_natToChars, mk_toList]

theorem newline_not_mem_csvRow (side : String) (l : OrderbookLevel)
    (hside : '\n' ∉ side.toList) (hl : csvSafeLevel l) :
    '\n' ∉ (Yessave.csvRow side l).toList := by
  obtain ⟨⟨_, hp⟩, ⟨_, hs⟩, ⟨_, hc⟩, ⟨_, ht⟩⟩ := hl
  have hdig : '\n' ∉ natToChars l.level :=
    not_mem_of_all_isDigit (by decide) (natToChars_spec l.level).1
  rw [csvRow_toList]
  simp only [List.mem_append, List.mem_cons, not_or]
  refine ⟨hside, fun hcc => ?_, hdig, fun hcc => ?_, hp, fun hcc => ?_, hs, fun hcc => ?_, hc,
    fun hcc => ?_, ht⟩ <;> cases hcc

theorem splitOnSep_joinLines :
    ∀ (rows : List String), rows ≠ [] → (∀ r ∈ rows, '\n' ∉ r.toList) →
      splitOnSep '\n' (Yessave.joinLines rows).toList = rows.map String.toList
  | [], h, _ => absurd rfl h
  | [r], _, hall => by
    rw [Yessave.joinLines]
    rw [splitOnSep_of_not_mem (hall r (by simp))]
    rfl
  | r :: r2 :: rest, _, hall => by
    have hr : '\n' ∉ r.toList := hall r (by simp)
    have htail := splitOnSep_joinLines (r2 :: rest) (List.cons_ne_nil _ _)
      (fun x hx => hall x (List.mem_cons_of_mem _ hx))
    rw [Yessave.joinLines, toList_append, toList_append]
    have hsh : ("\n" : String).toList = ['\n'] := rfl
    rw [hsh, List.append_assoc, List.singleton_append]
    rw [splitOnSep_append _ hr, htail]
    · rfl
    · exact List.cons_ne_nil _ _

theorem filterMap_parse_side (side : String) (hside : ',' ∉ side.toList) :
    ∀ (ls : List OrderbookLevel), (∀ l ∈ ls, csvSafeLevel l) →
      ((ls.map (Yessave.csvRow side)).map String.toList).filterMap parseCsvRow =
        ls.map (fun l =>
          (side, l.level, JField.coerce l.price, JField.coerce l.size, l.cumulative))
  | [], _ => rfl
  | l :: r, hall => by
    simp only [List.map_cons, List.filterMap_cons]
    rw [parseCsvRow_csvRow side l hside (hall l (by simp))]
    exact congrArg (List.cons _)
      (filterMap_parse_side side hside r (fun x hx => hall x (List.mem_cons_of_mem _ hx)))

/-- C7: re-parsing the persisted tabular (CSV) form of a record whose field
strings contain no separator characters reconstructs exactly the in-memory
`(side, rank, price, size, cumulative)` tuples, bids first then asks. -/
theorem csv_roundtrip (c : CoinOrderbook) (h : CsvSafe c) :
    parseCsv (Yessave.csvContent c) = depthTuples c := by
  have hhead : (Yessave.csvHeader : String).toList =
      "Side,Level,Price,Size,Cumulative,Timestamp".toList ++ ['\n'] := by decide
  have hheadfree : '\n' ∉ "Side,Level,Price,Size,Cumulative,Timestamp".toList := by decide
  rw [parseCsv, Yessave.csvContent, toList_append, hhead, List.append_assoc,
    List.singleton_append, splitOnSep_append _ hheadfree, List.drop_one, List.tail_cons]
  by_cases hrows : c.bids.map (Yessave.csvRow "BID") ++ c.asks.map (Yessave.csvRow "ASK") = []
  · rw [hrows]
    obtain ⟨hb, ha⟩ := List.append_eq_nil.mp hrows
    rw [List.map_eq_nil_iff] at hb ha
    rw [depthTuples, hb, ha]
    rfl
  · have hbids : ∀ l ∈ c.bids, csvSafeLevel l := fun l hl => h l (List.mem_append_left _ hl)
    have hasks : ∀ l ∈ c.asks, csvSafeLevel l := fun l hl => h l (List.mem_append_right _ hl)
    have hallfree : ∀ r ∈ c.bids.map (Yessave.csvRow "BID") ++ c.asks.map (Yessave.csvRow "ASK"),
        '\n' ∉ r.toList := by
      intro r hr
      rcases List.mem_append.mp hr with hr | hr
      · obtain ⟨l, hl, rfl⟩ := List.mem_map.mp hr
        exact newline_not_mem_csvRow _ _ (by decide) (hbids l hl)
      · obtain ⟨l, hl, rfl⟩ := List.mem_map.mp hr
        exact newline_not_mem_csvRow _ _ (by decide) (hasks l hl)
    rw [splitOnSep_joinLines _ hrows hallfree, List.map_append, List.filterMap_append]
    rw [filterMap_parse_side "BID" (by decide) c.bids hbids,
        filterMap_parse_side "ASK" (by decide) c.asks hasks]
    rfl

/-- C7 witness: the record from the worked example round-trips through the
CSV form. -/
theorem csv_roundtrip_witness :
    parseCsv (Yessave.csvContent
      (CoinOrderbook.mk "@1" "@1" "T" "0" "0.50000000" "0.5000%"
        [OrderbookLevel.mk 1 (JField.str "100.00") (JField.str "2") "2.0000" "T",
         OrderbookLevel.mk 2 (JField.str "99.50") (JField.str "3") "5.0000" "T"]
        [OrderbookLevel.mk 1 (JField.str "100.50") (JField.str "1") "1.0000" "T",
         OrderbookLevel.mk 2 (JField.str "101.00") (JField.str "4") "5.0000" "T"])) =
      depthTuples
        (CoinOrderbook.mk "@1" "@1" "T" "0" "0.50000000" "0.5000%"
          [OrderbookLevel.mk 1 (JField.str "100.00") (JField.str "2") "2.0000" "T",
           OrderbookLevel.mk 2 (JField.str "99.50") (JField.str "3") "5.0000" "T"]
          [OrderbookLevel.mk 1 (JField.str "100.50") (JField.str "1") "1.0000" "T",
           OrderbookLevel.mk 2 (JField.str "101.00") (JField.str "4") "5.0000" "T"]) :=
  csv_roundtrip _ (by simp only [CsvSafe, csvSafeLevel, csvSafeStr]; decide)
